import Mathlib

/-!
A shallow embedding of the Honey Badger epoch engine
(`src/src/honey_badger.rs`).

The engine is a sequential state machine over a `HoneyBadger` record.
Its external collaborators — the `CommonSubset` (ACS) sub-protocol, the
`rand` sampler and the `bincode` codec, whose code lives outside this
repository — are supplied as an explicit environment record `Env` of
plain functions, mirroring the interfaces the Rust code calls.  Every
fallible ACS call returns its result together with the possibly mutated
instance state, mirroring Rust `&mut self` receivers whose partial
mutations survive an early `?` return.
-/

/-- Serialized bytes, Rust `Vec<u8>`. -/
abbrev Bytes : Type := List Nat

/-- The target of an outbound message (Rust `TargetedMessage` targeting:
broadcast or unicast). -/
inductive Target (N : Type) where
  | broadcast : Target N
  | node : N → Target N
  deriving DecidableEq

/-- Rust `TargetedMessage<M, N>`. -/
structure TargetedMessage (M N : Type) where
  target : Target N
  message : M
  deriving DecidableEq

/-- Rust `Message<N>`: a common-subset message tagged with its epoch.
The inner `common_subset::Message<N>` is the opaque type parameter `M`. -/
inductive Message (M : Type) where
  | CommonSubset : Nat → M → Message M
  deriving DecidableEq

/-- Rust `honey_badger::Error`.  The payloads of the `CommonSubset` and
`Bincode` variants are opaque to the engine; they are coded as `Nat`. -/
inductive Error where
  | OwnIdMissing : Error
  | UnknownSender : Error
  | CommonSubset : Nat → Error
  | Bincode : Nat → Error
  deriving DecidableEq

/-- Rust `Batch<T>`: the `BTreeSet<T>` of transactions is modelled as a
`Finset T` (the claims under study depend on membership only). -/
structure Batch (T : Type) where
  epoch : Nat
  transactions : Finset T
  deriving DecidableEq

deriving instance DecidableEq for Except

/-- Result type of the mutating engine operations: Rust
`Result<(), Error>` together with the state left behind. -/
abbrev HBResult : Type := Except Error Unit

/-- Modelled from the spec: the external collaborators (§6.1 ACS
interface, §4.3 `rand::seq::sample_iter`, §6.3 `bincode` codec), whose
code is outside this repository.  `C` is the opaque state of one
`CommonSubset` instance.  `sample_iter` returns `ok` with the chosen
sample, or `error` carrying all available elements when fewer than the
requested amount exist, exactly the shape the Rust call site matches on.
Error payloads are coded as `Nat`. -/
structure Env (T N C M : Type) where
  acsNew : N → Finset N → Except Nat C
  acsInput : C → Bytes → Except Nat Unit × C
  acsHandleMessage : C → N → M → Except Nat Unit × C
  acsMessageIter : C → List (TargetedMessage M N) × C
  acsNextOutput : C → Option (List (N × Bytes)) × C
  acsTerminated : C → Bool
  sample_iter : List T → Nat → Except (List T) (List T)
  ser : List T → Except Nat Bytes
  de : Bytes → Except Nat (List T)

/-- The engine state, Rust `struct HoneyBadger<T, N>`.  The
`BTreeMap<u64, CommonSubset<N>>` is an association list from epoch to
instance state; the `HashSet<N>` of participants is a `Finset N`; the
two `VecDeque`s are lists with push-to-the-back, pop-from-the-front. -/
structure HoneyBadger (T N C M : Type) where
  buffer : List T
  epoch : Nat
  common_subsets : List (Nat × C)
  id : N
  all_uids : Finset N
  batch_size : Nat
  messages : List (TargetedMessage (Message M) N)
  output : List (Batch T)
  deriving DecidableEq

/-- Lookup in the epoch-indexed instance map (Rust `BTreeMap::get`). -/
def alGet {C : Type} : List (Nat × C) → Nat → Option C
  | [], _ => none
  | (k', v) :: rest, k => if k' = k then some v else alGet rest k

/-- Write the value stored at a present key back (Rust mutation through
the borrowed map entry). -/
def alSet {C : Type} : List (Nat × C) → Nat → C → List (Nat × C)
  | [], _, _ => []
  | (k', v') :: rest, k, v =>
    if k' = k then (k, v) :: alSet rest k v else (k', v') :: alSet rest k v

/-- Remove a key (Rust `BTreeMap::remove`). -/
def alRemove {C : Type} : List (Nat × C) → Nat → List (Nat × C)
  | [], _ => []
  | (k', v') :: rest, k =>
    if k' = k then alRemove rest k else (k', v') :: alRemove rest k

variable {T N C M : Type} [DecidableEq T] [DecidableEq N]

/-- Rust `fn add_transactions`: `self.buffer.extend(txs); Ok(())`. -/
def add_transactions (st : HoneyBadger T N C M) (txs : List T) :
    HBResult × HoneyBadger T N C M :=
  (.ok (), { st with buffer := st.buffer ++ txs })

/-- Rust `fn input`: `self.add_transactions(iter::once(input))`. -/
def input (st : HoneyBadger T N C M) (tx : T) : HBResult × HoneyBadger T N C M :=
  add_transactions st [tx]

/-- Rust `fn next_message`: `self.messages.pop_front()`. -/
def next_message (st : HoneyBadger T N C M) :
    Option (TargetedMessage (Message M) N) × HoneyBadger T N C M :=
  match st.messages with
  | [] => (none, st)
  | tm :: rest => (some tm, { st with messages := rest })

/-- Rust `fn next_output`: `self.output.pop_front()`. -/
def next_output (st : HoneyBadger T N C M) :
    Option (Batch T) × HoneyBadger T N C M :=
  match st.output with
  | [] => (none, st)
  | b :: rest => (some b, { st with output := rest })

/-- Rust `fn terminated`: always `false`. -/
def hbTerminated (_st : HoneyBadger T N C M) : Bool :=
  false

/-- Rust `fn our_id`. -/
def our_id (st : HoneyBadger T N C M) : N :=
  st.id

/-- Rust `fn choose_transactions`: `amount = max(1, batch_size /
all_uids.len())`, the sampling window is `&buffer[..min(batch_size,
buffer.len())]`, the sample is whatever `rand::seq::sample_iter`
returns (`Ok` or `Err` alike), serialized with `bincode`. -/
def choose_transactions (env : Env T N C M) (st : HoneyBadger T N C M) :
    Except Error Bytes :=
  let amount := max 1 (st.batch_size / st.all_uids.card)
  let bsz := min st.batch_size st.buffer.length
  let sample :=
    match env.sample_iter (st.buffer.take bsz) amount with
    | .ok choice => choice
    | .error choice => choice
  match env.ser sample with
  | .error e => .error (.Bincode e)
  | .ok bytes => .ok bytes

/-- Shared tail of `propose`: give our proposal to the current epoch's
instance and drain its outbound messages (Rust `cs.input(proposal)?`
followed by the `message_iter` loop).  `store` writes the instance
state back into the map, as the borrowed entry does in Rust. -/
def cs_input_and_drain (env : Env T N C M) (epoch : Nat) (proposal : Bytes)
    (cs : C) (store : C → HoneyBadger T N C M) : HBResult × HoneyBadger T N C M :=
  let ri := env.acsInput cs proposal
  match ri.1 with
  | .error e => (.error (.CommonSubset e), store ri.2)
  | .ok _ =>
    let drained := env.acsMessageIter ri.2
    let st1 := store drained.2
    (.ok (),
      { st1 with
        messages := st1.messages ++
          drained.1.map (fun tm =>
            { tm with message := Message.CommonSubset epoch tm.message }) })

/-- Rust `fn propose`: choose and serialize a sample, obtain or create
the current epoch's instance, input the proposal, queue the drained
messages tagged with the current epoch. -/
def propose (env : Env T N C M) (st : HoneyBadger T N C M) :
    HBResult × HoneyBadger T N C M :=
  match choose_transactions env st with
  | .error e => (.error e, st)
  | .ok proposal =>
    match alGet st.common_subsets st.epoch with
    | some cs =>
      cs_input_and_drain env st.epoch proposal cs
        (fun c => { st with common_subsets := alSet st.common_subsets st.epoch c })
    | none =>
      match env.acsNew st.id st.all_uids with
      | .error e => (.error (.CommonSubset e), st)
      | .ok cs0 =>
        cs_input_and_drain env st.epoch proposal cs0
          (fun c => { st with common_subsets := st.common_subsets ++ [(st.epoch, c)] })

/-- Rust `fn take_current_output`:
`common_subsets.get_mut(&epoch).and_then(next_output)`; the instance is
mutated by `next_output`, so the possibly changed state is written back. -/
def take_current_output (env : Env T N C M) (st : HoneyBadger T N C M) :
    Option (List (N × Bytes)) × HoneyBadger T N C M :=
  match alGet st.common_subsets st.epoch with
  | none => (none, st)
  | some cs =>
    let oc := env.acsNextOutput cs
    (oc.1, { st with common_subsets := alSet st.common_subsets st.epoch oc.2 })

/-- Rust decode of one ACS output map:
`ser_batches.into_iter().map(deserialize).collect::<Result<Vec<_>,_>>()`,
stopping at the first failure. -/
def decodeAll (env : Env T N C M) : List (N × Bytes) → Except Nat (List (List T))
  | [] => .ok []
  | (_, b) :: rest =>
    match env.de b with
    | .error e => .error e
    | .ok txs =>
      match decodeAll env rest with
      | .error e => .error e
      | .ok rests => .ok (txs :: rests)

/-- The `while let Some(ser_batches) = self.take_current_output()` loop
of Rust `fn process_output`.  The loop never inserts map keys and
advances the epoch on every iteration, so it runs at most once per key
of `common_subsets`; the explicit fuel is chosen larger than that bound
by `process_output` (see `process_output_go_stable`). -/
def process_output_go (env : Env T N C M) :
    Nat → HoneyBadger T N C M → HBResult × HoneyBadger T N C M
  | 0, st => (.ok (), st)
  | fuel + 1, st =>
    let tc := take_current_output env st
    match tc.1 with
    | none => (.ok (), tc.2)
    | some ser_batches =>
      match decodeAll env ser_batches with
      | .error e => (.error (.Bincode e), tc.2)
      | .ok txss =>
        let transactions : Finset T := txss.flatten.toFinset
        process_output_go env fuel
          { tc.2 with
            buffer := tc.2.buffer.filter (fun tx => tx ∉ transactions),
            output := tc.2.output ++ [{ epoch := tc.2.epoch, transactions := transactions }],
            epoch := tc.2.epoch + 1 }

/-- Rust `fn process_output`: drain the current epoch's outputs into
batches (pruning the buffer and advancing the epoch each time), then, if
the epoch advanced at all, propose into the new epoch. -/
def process_output (env : Env T N C M) (st : HoneyBadger T N C M) :
    HBResult × HoneyBadger T N C M :=
  let go := process_output_go env (st.common_subsets.length + 1) st
  match go.1 with
  | .error e => (.error e, go.2)
  | .ok _ => if st.epoch < go.2.epoch then propose env go.2 else (.ok (), go.2)

/-- The body of the `remove_terminated` loop: drop the instance at
epoch `e` if it exists and has terminated. -/
def gcStep (env : Env T N C M) (m : List (Nat × C)) (e : Nat) : List (Nat × C) :=
  match alGet m e with
  | some c => if env.acsTerminated c then alRemove m e else m
  | none => m

/-- Rust `fn remove_terminated`: for every epoch in
`from_epoch..self.epoch`, drop the instance if it has terminated. -/
def remove_terminated (env : Env T N C M) (st : HoneyBadger T N C M)
    (from_epoch : Nat) : HoneyBadger T N C M :=
  { st with
    common_subsets :=
      (List.range' from_epoch (st.epoch - from_epoch)).foldl (gcStep env)
        st.common_subsets }

/-- Shared tail of `handle_common_subset_message` once the instance for
`epoch` has been obtained (the Rust code after the `entry` match):
deliver the message, drain and queue the outgoing messages, run the
output assembler when `epoch` is current, then the termination GC. -/
def deliver_cs_message (env : Env T N C M) (sender : N) (epoch : Nat) (m : M)
    (cs : C) (store : C → HoneyBadger T N C M) : HBResult × HoneyBadger T N C M :=
  let rh := env.acsHandleMessage cs sender m
  match rh.1 with
  | .error e => (.error (.CommonSubset e), store rh.2)
  | .ok _ =>
    let drained := env.acsMessageIter rh.2
    let st1 := store drained.2
    let st2 :=
      { st1 with
        messages := st1.messages ++
          drained.1.map (fun tm =>
            { tm with message := Message.CommonSubset epoch tm.message }) }
    let po := if epoch = st2.epoch then process_output env st2 else (.ok (), st2)
    match po.1 with
    | .error e => (.error e, po.2)
    | .ok _ => (.ok (), remove_terminated env po.2 epoch)

/-- Rust `fn handle_common_subset_message`: borrow the instance for
`epoch` or, when absent, silently drop obsolete messages
(`epoch < self.epoch`) or create the instance. -/
def handle_common_subset_message (env : Env T N C M) (sender : N) (epoch : Nat)
    (m : M) (st : HoneyBadger T N C M) : HBResult × HoneyBadger T N C M :=
  match alGet st.common_subsets epoch with
  | some cs =>
    deliver_cs_message env sender epoch m cs
      (fun c => { st with common_subsets := alSet st.common_subsets epoch c })
  | none =>
    if epoch < st.epoch then (.ok (), st)
    else
      match env.acsNew st.id st.all_uids with
      | .error e => (.error (.CommonSubset e), st)
      | .ok cs0 =>
        deliver_cs_message env sender epoch m cs0
          (fun c => { st with common_subsets := st.common_subsets ++ [(epoch, c)] })

/-- Rust `fn handle_message`: reject unknown senders, then dispatch on
the (single) message variant. -/
def handle_message (env : Env T N C M) (sender : N) (message : Message M)
    (st : HoneyBadger T N C M) : HBResult × HoneyBadger T N C M :=
  if sender ∈ st.all_uids then
    match message with
    | .CommonSubset epoch m => handle_common_subset_message env sender epoch m st
  else (.error .UnknownSender, st)

/-- Rust `fn new`: collect the membership set, fail with `OwnIdMissing`
when our own id is not a member, otherwise build the initial state and
immediately propose in epoch 0. -/
def new (env : Env T N C M) (id : N) (all_uids_iter : List N) (batch_size : Nat)
    (txs : List T) : Except Error (HoneyBadger T N C M) :=
  let all_uids : Finset N := all_uids_iter.toFinset
  if id ∈ all_uids then
    match
      propose env
        { buffer := txs, epoch := 0, common_subsets := [], id := id,
          all_uids := all_uids, batch_size := batch_size, messages := [],
          output := [] } with
    | (.error e, _) => .error e
    | (.ok _, hb) => .ok hb
  else .error .OwnIdMissing

/-- All states an engine can be in after any sequence of public
operations from construction, paired with the list of batches returned
so far by `next_output` (spec §8, "for any schedule of inputs, messages
and polls").  Steps record the state left behind whether the operation
succeeded or failed, as with Rust `&mut self` receivers. -/
inductive Reachable (env : Env T N C M) :
    HoneyBadger T N C M → List (Batch T) → Prop where
  | init (id : N) (uids : List N) (bs : Nat) (txs : List T)
      (st : HoneyBadger T N C M) :
      new env id uids bs txs = .ok st → Reachable env st []
  | input_step (st : HoneyBadger T N C M) (hist : List (Batch T)) (tx : T)
      (r : HBResult) (st' : HoneyBadger T N C M) :
      Reachable env st hist → input st tx = (r, st') → Reachable env st' hist
  | add_step (st : HoneyBadger T N C M) (hist : List (Batch T)) (txs : List T)
      (r : HBResult) (st' : HoneyBadger T N C M) :
      Reachable env st hist → add_transactions st txs = (r, st') →
      Reachable env st' hist
  | handle_step (st : HoneyBadger T N C M) (hist : List (Batch T)) (sender : N)
      (msg : Message M) (r : HBResult) (st' : HoneyBadger T N C M) :
      Reachable env st hist → handle_message env sender msg st = (r, st') →
      Reachable env st' hist
  | next_message_step (st : HoneyBadger T N C M) (hist : List (Batch T))
      (o : Option (TargetedMessage (Message M) N)) (st' : HoneyBadger T N C M) :
      Reachable env st hist → next_message st = (o, st') → Reachable env st' hist
  | next_output_none (st : HoneyBadger T N C M) (hist : List (Batch T))
      (st' : HoneyBadger T N C M) :
      Reachable env st hist → next_output st = (none, st') → Reachable env st' hist
  | next_output_some (st : HoneyBadger T N C M) (hist : List (Batch T))
      (b : Batch T) (st' : HoneyBadger T N C M) :
      Reachable env st hist → next_output st = (some b, st') →
      Reachable env st' (hist ++ [b])

/-- What one public mutating operation may do to the observable queues:
batches are only appended, each appended batch bumps the epoch by one,
the buffer only loses elements, every appended batch is disjoint from
the resulting buffer, outbound messages are only appended, and the
epoch labelling of the output queue stays consecutive. -/
def EngineStep (st st' : HoneyBadger T N C M) : Prop :=
  ∃ nb : List (Batch T),
    st'.output = st.output ++ nb ∧
    st'.epoch = st.epoch + nb.length ∧
    st'.buffer.Sublist st.buffer ∧
    (∀ b ∈ nb, ∀ t ∈ b.transactions, t ∉ st'.buffer) ∧
    (∃ extra, st'.messages = st.messages ++ extra) ∧
    (∀ hist0 : List (Batch T),
      (hist0 ++ st.output).map Batch.epoch = List.range st.epoch →
      (hist0 ++ st'.output).map Batch.epoch = List.range st'.epoch)

/-- A scripted instantiation of the external collaborators, used for the
concrete runs below.  An ACS instance state is a counter: `0` fresh,
`1` after our proposal, `2` after one delivered message (at which point
it yields its single, empty output and moves to `3`), `100` a
terminated wreck left behind by a failing `handle_message` on the
payload `99`.  Draining an instance in state `4` emits one broadcast. -/
def exEnv : Env Nat Nat Nat Nat where
  acsNew := fun _ _ => .ok 0
  acsInput := fun c _ => (.ok (), c + 1)
  acsHandleMessage := fun c _ m => if m = 99 then (.error 7, 100) else (.ok (), c + 1)
  acsMessageIter := fun c => if c = 4 then ([⟨Target.broadcast, 0⟩], 5) else ([], c)
  acsNextOutput := fun c => if c = 2 then (some [(0, [])], 3) else (none, c)
  acsTerminated := fun c => c == 100
  sample_iter := fun l k => if l.length < k then .error l else .ok (l.take k)
  ser := fun l => .ok l
  de := fun b => .ok b

/-- The scripted single-node engine right after construction. -/
def exSt0 : HoneyBadger Nat Nat Nat Nat :=
  match new exEnv 0 [0] 1 [] with
  | .ok s => s
  | .error _ =>
    { buffer := [], epoch := 0, common_subsets := [], id := 0, all_uids := ∅,
      batch_size := 0, messages := [], output := [] }

/-- One delivered common-subset message for epoch `e` in the scripted run. -/
def exStep (st : HoneyBadger Nat Nat Nat Nat) (e : Nat) : HoneyBadger Nat Nat Nat Nat :=
  (handle_message exEnv 0 (Message.CommonSubset e 0) st).2

/-- The scripted engine driven to epoch 5; the instances of epochs
0–4 survive in state `3` (they have output but never terminated). -/
def exSt5 : HoneyBadger Nat Nat Nat Nat :=
  exStep (exStep (exStep (exStep (exStep exSt0 0) 1) 2) 3) 4

/-- The scripted engine after a failing delivery to the (still alive)
instance of the past epoch 2, which leaves that instance terminated. -/
def exSt7 : HoneyBadger Nat Nat Nat Nat :=
  (handle_message exEnv 0 (Message.CommonSubset 2 99) exSt5).2

/-- Like `exEnv` but the single output carries the serialized
transaction `5`, and no instance ever emits messages on drain. -/
def exEnvB : Env Nat Nat Nat Nat where
  acsNew := fun _ _ => .ok 0
  acsInput := fun c _ => (.ok (), c + 1)
  acsHandleMessage := fun c _ m => if m = 99 then (.error 7, 100) else (.ok (), c + 1)
  acsMessageIter := fun c => ([], c)
  acsNextOutput := fun c => if c = 2 then (some [(0, [5])], 3) else (none, c)
  acsTerminated := fun c => c == 100
  sample_iter := fun l k => if l.length < k then .error l else .ok (l.take k)
  ser := fun l => .ok l
  de := fun b => .ok b

/-- Scripted engine over `exEnvB`, constructed with the single buffered
transaction `5`. -/
def exB0 : HoneyBadger Nat Nat Nat Nat :=
  match new exEnvB 0 [0] 1 [5] with
  | .ok s => s
  | .error _ =>
    { buffer := [], epoch := 0, common_subsets := [], id := 0, all_uids := ∅,
      batch_size := 0, messages := [], output := [] }

/-- Over `exEnvB`: deliver the epoch-0 message (the batch containing `5`
is emitted, the buffer pruned), then re-input transaction `5`. -/
def exB2 : HoneyBadger Nat Nat Nat Nat :=
  (input (handle_message exEnvB 0 (Message.CommonSubset 0 0) exB0).2 5).2

/-- Like `exEnvB` but serializing the empty follow-up sample fails, so
the propose step of the freshly advanced epoch errors out after the
epoch-0 batch has already been emitted. -/
def exEnvC : Env Nat Nat Nat Nat where
  acsNew := fun _ _ => .ok 0
  acsInput := fun c _ => (.ok (), c + 1)
  acsHandleMessage := fun c _ m => if m = 99 then (.error 7, 100) else (.ok (), c + 1)
  acsMessageIter := fun c => ([], c)
  acsNextOutput := fun c => if c = 2 then (some [(0, [5])], 3) else (none, c)
  acsTerminated := fun c => c == 100
  sample_iter := fun l k => if l.length < k then .error l else .ok (l.take k)
  ser := fun l => if l = [] then .error 9 else .ok l
  de := fun b => .ok b

/-- Scripted engine over `exEnvC`. -/
def exC0 : HoneyBadger Nat Nat Nat Nat :=
  match new exEnvC 0 [0] 1 [5] with
  | .ok s => s
  | .error _ =>
    { buffer := [], epoch := 0, common_subsets := [], id := 0, all_uids := ∅,
      batch_size := 0, messages := [], output := [] }

/-- Like `exEnvB` but the proposal bytes of the single output do not
decode. -/
def exEnvD : Env Nat Nat Nat Nat where
  acsNew := fun _ _ => .ok 0
  acsInput := fun c _ => (.ok (), c + 1)
  acsHandleMessage := fun c _ m => if m = 99 then (.error 7, 100) else (.ok (), c + 1)
  acsMessageIter := fun c => ([], c)
  acsNextOutput := fun c => if c = 2 then (some [(0, [])], 3) else (none, c)
  acsTerminated := fun c => c == 100
  sample_iter := fun l k => if l.length < k then .error l else .ok (l.take k)
  ser := fun l => .ok l
  de := fun b => if b = [] then .error 3 else .ok b

/-- A small engine state whose current-epoch instance is one delivered
message away from yielding an undecodable output. -/
def exD0 : HoneyBadger Nat Nat Nat Nat :=
  { buffer := [9], epoch := 0, common_subsets := [(0, 1)], id := 0,
    all_uids := {0}, batch_size := 1, messages := [], output := [] }

/-- The scripted engine after a successful delivery to the (still alive)
instance of the past epoch 2 from `exSt5` — the GC scan runs. -/
def exSt6 : HoneyBadger Nat Nat Nat Nat :=
  (handle_message exEnv 0 (Message.CommonSubset 2 0) exSt5).2

/-- An engine state at epoch 5 whose registry holds no instance at all:
messages for past epochs hit the vacant-entry drop path. -/
def exV : HoneyBadger Nat Nat Nat Nat :=
  { buffer := [], epoch := 5, common_subsets := [], id := 0,
    all_uids := {0}, batch_size := 1, messages := [], output := [] }

set_option linter.unusedSectionVars false

/-! Basic lemmas about the association-list map. -/

theorem alGet_alSet_self {C : Type} (m : List (Nat × C)) (k : Nat) (v c : C)
    (h : alGet m k = some c) : alGet (alSet m k v) k = some v := by
  induction m with
  | nil => simp [alGet] at h
  | cons p rest ih =>
    obtain ⟨k', v'⟩ := p
    rw [alGet] at h
    by_cases hk : k' = k
    · simp [alSet, alGet, hk]
    · rw [if_neg hk] at h
      simpa [alSet, alGet, hk] using ih h

theorem alSet_map_fst {C : Type} (m : List (Nat × C)) (k : Nat) (v : C) :
    (alSet m k v).map Prod.fst = m.map Prod.fst := by
  induction m with
  | nil => simp [alSet]
  | cons p rest ih =>
    obtain ⟨k', v'⟩ := p
    by_cases hk : k' = k
    · simpa [alSet, hk] using ih
    · simpa [alSet, hk] using ih

theorem alGet_alRemove_eq {C : Type} (m : List (Nat × C)) (k j : Nat) :
    alGet (alRemove m k) j = if j = k then none else alGet m j := by
  induction m with
  | nil => simp [alRemove, alGet]
  | cons p rest ih =>
    obtain ⟨k', v'⟩ := p
    by_cases hk : k' = k
    · subst hk
      by_cases hj : j = k'
      · simpa [alRemove, alGet, hj] using ih
      · have hkj : ¬ k' = j := fun hh => hj hh.symm
        simpa [alRemove, alGet, hj, hkj] using ih
    · by_cases hj : k' = j
      · subst hj
        have hjk : ¬ k' = k := hk
        simp [alRemove, alGet, hjk]
      · simpa [alRemove, alGet, hk, hj] using ih

theorem alGet_alRemove_some {C : Type} (m : List (Nat × C)) (k j : Nat) (c : C)
    (h : alGet (alRemove m k) j = some c) : alGet m j = some c := by
  rw [alGet_alRemove_eq] at h
  by_cases hj : j = k
  · simp [hj] at h
  · simpa [hj] using h

theorem alGet_alRemove_self {C : Type} (m : List (Nat × C)) (k : Nat) :
    alGet (alRemove m k) k = none := by
  simp [alGet_alRemove_eq]

/-! The `EngineStep` relation is reflexive and transitive. -/

theorem EngineStep.refl (st : HoneyBadger T N C M) : EngineStep st st := by
  refine ⟨[], by simp, by simp, List.Sublist.refl _, by simp, ⟨[], by simp⟩, ?_⟩
  intro hist0 h
  simpa using h

theorem EngineStep.trans {st1 st2 st3 : HoneyBadger T N C M}
    (h12 : EngineStep st1 st2) (h23 : EngineStep st2 st3) : EngineStep st1 st3 := by
  obtain ⟨nb1, ho1, he1, hb1, hp1, ⟨ex1, hm1⟩, hh1⟩ := h12
  obtain ⟨nb2, ho2, he2, hb2, hp2, ⟨ex2, hm2⟩, hh2⟩ := h23
  refine ⟨nb1 ++ nb2, ?_, ?_, hb2.trans hb1, ?_, ⟨ex1 ++ ex2, ?_⟩, ?_⟩
  · rw [ho2, ho1, List.append_assoc]
  · rw [he2, he1, List.length_append]; omega
  · intro b hb t ht
    rcases List.mem_append.mp hb with h | h
    · exact fun hmem => hp1 b h t ht (hb2.mem hmem)
    · exact hp2 b h t ht
  · rw [hm2, hm1, List.append_assoc]
  · intro hist0 h
    exact hh2 hist0 (hh1 hist0 h)

/-- A state differing only in `common_subsets` is an `EngineStep`. -/
theorem EngineStep.of_frame {st st' : HoneyBadger T N C M}
    (ho : st'.output = st.output) (he : st'.epoch = st.epoch)
    (hb : st'.buffer = st.buffer) (hm : st'.messages = st.messages) :
    EngineStep st st' := by
  refine ⟨[], by simp [ho], by simp [he], by simp [hb], by simp, ⟨[], by simp [hm]⟩, ?_⟩
  intro hist0 h
  rw [ho, he]
  exact h

/-! Frame lemmas: `propose` and its helpers never touch the buffer, the
epoch or the output queue, and only append to the message queue. -/

theorem cs_input_and_drain_frame (env : Env T N C M) (ep : Nat) (pr : Bytes)
    (cs : C) (store : C → HoneyBadger T N C M) (st : HoneyBadger T N C M)
    (hb : ∀ c, (store c).buffer = st.buffer) (he : ∀ c, (store c).epoch = st.epoch)
    (ho : ∀ c, (store c).output = st.output)
    (hm : ∀ c, (store c).messages = st.messages) :
    (cs_input_and_drain env ep pr cs store).2.buffer = st.buffer ∧
    (cs_input_and_drain env ep pr cs store).2.epoch = st.epoch ∧
    (cs_input_and_drain env ep pr cs store).2.output = st.output ∧
    ∃ extra, (cs_input_and_drain env ep pr cs store).2.messages = st.messages ++ extra := by
  unfold cs_input_and_drain
  cases hri : (env.acsInput cs pr).1 with
  | error e =>
    simp only [hri]
    exact ⟨hb _, he _, ho _, [], by simp [hm]⟩
  | ok u =>
    simp only [hri]
    exact ⟨hb _, he _, ho _, _, by rw [hm]⟩

theorem propose_frame (env : Env T N C M) (st : HoneyBadger T N C M) :
    (propose env st).2.buffer = st.buffer ∧
    (propose env st).2.epoch = st.epoch ∧
    (propose env st).2.output = st.output ∧
    ∃ extra, (propose env st).2.messages = st.messages ++ extra := by
  unfold propose
  cases hc : choose_transactions env st with
  | error e => exact ⟨rfl, rfl, rfl, [], by simp⟩
  | ok proposal =>
    cases hg : alGet st.common_subsets st.epoch with
    | some cs =>
      exact cs_input_and_drain_frame env st.epoch proposal cs _ st
        (fun c => rfl) (fun c => rfl) (fun c => rfl) (fun c => rfl)
    | none =>
      cases hn : env.acsNew st.id st.all_uids with
      | error e => exact ⟨rfl, rfl, rfl, [], by simp⟩
      | ok cs0 =>
        exact cs_input_and_drain_frame env st.epoch proposal cs0 _ st
          (fun c => rfl) (fun c => rfl) (fun c => rfl) (fun c => rfl)

/-- An `EngineStep` restatement of `propose_frame`. -/
theorem propose_step (env : Env T N C M) (st : HoneyBadger T N C M) :
    EngineStep st (propose env st).2 := by
  obtain ⟨hb, he, ho, hm⟩ := propose_frame env st
  refine ⟨[], by simp [ho], by simp [he], by simp [hb], by simp, hm, ?_⟩
  intro hist0 h
  rw [ho, he]
  exact h

/-- Construction: `new` seeds the buffer and starts at epoch 0 with an
empty output queue (it only runs `propose` on the initial record). -/
theorem new_shape (env : Env T N C M) (id : N) (uids : List N) (bs : Nat)
    (txs : List T) (st : HoneyBadger T N C M)
    (h : new env id uids bs txs = .ok st) :
    st.buffer = txs ∧ st.epoch = 0 ∧ st.output = [] := by
  simp only [new] at h
  by_cases hmem : id ∈ uids.toFinset
  · rw [if_pos hmem] at h
    rcases heq : propose env
        { buffer := txs, epoch := 0, common_subsets := [], id := id,
          all_uids := uids.toFinset, batch_size := bs, messages := [],
          output := [] } with ⟨r, hb'⟩
    rw [heq] at h
    cases r with
    | error e => simp at h
    | ok u =>
      simp only [Except.ok.injEq] at h
      obtain ⟨hbuf, hep, hout, -⟩ := propose_frame env
        { buffer := txs, epoch := 0, common_subsets := [], id := id,
          all_uids := uids.toFinset, batch_size := bs, messages := [],
          output := [] }
      rw [heq] at hbuf hep hout
      simp only at hbuf hep hout
      rw [← h]
      exact ⟨hbuf, hep, hout⟩
  · rw [if_neg hmem] at h
    simp at h

/-- One assembler iteration is an `EngineStep` appending exactly the one
freshly decoded batch. -/
theorem emit_batch_step (st1 : HoneyBadger T N C M) (tr : Finset T) :
    EngineStep st1
      { st1 with
        buffer := st1.buffer.filter (fun tx => tx ∉ tr),
        output := st1.output ++ [{ epoch := st1.epoch, transactions := tr }],
        epoch := st1.epoch + 1 } := by
  refine ⟨[{ epoch := st1.epoch, transactions := tr }], rfl, by simp,
    List.filter_sublist _, ?_, ⟨[], by simp⟩, ?_⟩
  · intro b hb t ht hmem
    simp only [List.mem_singleton] at hb
    subst hb
    rw [List.mem_filter] at hmem
    have hnot : ¬ t ∈ tr := by simpa using hmem.2
    exact hnot ht
  · intro hist0 h
    simp only [← List.append_assoc, List.map_append, h, List.map_cons,
      List.map_nil]
    rw [List.range_succ]

/-- `take_current_output` changes only `common_subsets`. -/
theorem take_current_output_frame (env : Env T N C M) (st : HoneyBadger T N C M) :
    (take_current_output env st).2.buffer = st.buffer ∧
    (take_current_output env st).2.epoch = st.epoch ∧
    (take_current_output env st).2.output = st.output ∧
    (take_current_output env st).2.messages = st.messages := by
  unfold take_current_output
  cases alGet st.common_subsets st.epoch <;> simp

/-- The assembler loop is an `EngineStep`, whatever the fuel. -/
theorem process_output_go_step (env : Env T N C M) :
    ∀ (fuel : Nat) (st : HoneyBadger T N C M),
      EngineStep st (process_output_go env fuel st).2 := by
  intro fuel
  induction fuel with
  | zero => intro st; exact EngineStep.refl st
  | succ fuel ih =>
    intro st
    obtain ⟨htb, hte, hto, htm⟩ := take_current_output_frame env st
    have hframe : EngineStep st (take_current_output env st).2 :=
      ⟨[], by simp [hto], by simp [hte], by simp [htb], by simp,
        ⟨[], by simp [htm]⟩, fun hist0 h => by rw [hto, hte]; exact h⟩
    rw [process_output_go]
    cases hch : (take_current_output env st).1 with
    | none =>
      simp only [hch]
      exact hframe
    | some ser_batches =>
      simp only [hch]
      cases hd : decodeAll env ser_batches with
      | error e =>
        simp only [hd]
        exact hframe
      | ok txss =>
        simp only [hd]
        exact hframe.trans ((emit_batch_step _ _).trans (ih _))

/-- `process_output` (loop then conditional re-propose) is an
`EngineStep`. -/
theorem process_output_step (env : Env T N C M) (st : HoneyBadger T N C M) :
    EngineStep st (process_output env st).2 := by
  unfold process_output
  have hgo := process_output_go_step env (st.common_subsets.length + 1) st
  cases hr : (process_output_go env (st.common_subsets.length + 1) st).1 with
  | error e =>
    simp only [hr]
    exact hgo
  | ok u =>
    simp only [hr]
    split
    · exact hgo.trans (propose_step env _)
    · exact hgo

/-- `remove_terminated` changes only `common_subsets`. -/
theorem remove_terminated_frame (env : Env T N C M) (st : HoneyBadger T N C M)
    (fe : Nat) :
    (remove_terminated env st fe).buffer = st.buffer ∧
    (remove_terminated env st fe).epoch = st.epoch ∧
    (remove_terminated env st fe).output = st.output ∧
    (remove_terminated env st fe).messages = st.messages :=
  ⟨rfl, rfl, rfl, rfl⟩

/-- Delivering one common-subset message (with a `common_subsets`-only
`store`) is an `EngineStep`. -/
theorem deliver_cs_message_step (env : Env T N C M) (sender : N) (ep : Nat)
    (m : M) (cs : C) (store : C → HoneyBadger T N C M)
    (st : HoneyBadger T N C M)
    (hb : ∀ c, (store c).buffer = st.buffer) (he : ∀ c, (store c).epoch = st.epoch)
    (ho : ∀ c, (store c).output = st.output)
    (hm : ∀ c, (store c).messages = st.messages) :
    EngineStep st (deliver_cs_message env sender ep m cs store).2 := by
  unfold deliver_cs_message
  cases hrh : (env.acsHandleMessage cs sender m).1 with
  | error e =>
    simp only [hrh]
    exact ⟨[], by simp [ho], by simp [he], by simp [hb], by simp,
      ⟨[], by simp [hm]⟩, fun hist0 h => by rw [ho, he]; exact h⟩
  | ok u =>
    simp only [hrh]
    set drained := env.acsMessageIter (env.acsHandleMessage cs sender m).2 with hdr
    set st2 : HoneyBadger T N C M :=
      { store drained.2 with
        messages := (store drained.2).messages ++
          drained.1.map (fun tm =>
            { tm with message := Message.CommonSubset ep tm.message }) } with hst2
    have hstep2 : EngineStep st st2 := by
      refine ⟨[], by simp [hst2, ho], by simp [hst2, he], by simp [hst2, hb],
        by simp,
        ⟨drained.1.map (fun tm =>
            { tm with message := Message.CommonSubset ep tm.message }),
          by simp [hst2, hm]⟩, ?_⟩
      intro hist0 h
      have ho2 : st2.output = st.output := by simp [hst2, ho]
      have he2 : st2.epoch = st.epoch := by simp [hst2, he]
      rw [ho2, he2]
      exact h
    set po := if ep = st2.epoch then process_output env st2 else (.ok (), st2) with hpo
    have hpostep : EngineStep st2 po.2 := by
      rw [hpo]
      split
      · exact process_output_step env st2
      · exact EngineStep.refl st2
    cases hr : po.1 with
    | error e =>
      simp only [hr]
      exact hstep2.trans hpostep
    | ok u2 =>
      simp only [hr]
      refine (hstep2.trans hpostep).trans ?_
      obtain ⟨rb, re, ro, rm⟩ := remove_terminated_frame env po.2 ep
      exact ⟨[], by simp [ro], by simp [re], by simp [rb], by simp,
        ⟨[], by simp [rm]⟩, fun hist0 h => by rw [ro, re]; exact h⟩

/-- `handle_common_subset_message` is an `EngineStep`. -/
theorem handle_common_subset_message_step (env : Env T N C M) (sender : N)
    (ep : Nat) (m : M) (st : HoneyBadger T N C M) :
    EngineStep st (handle_common_subset_message env sender ep m st).2 := by
  unfold handle_common_subset_message
  cases hg : alGet st.common_subsets ep with
  | some cs =>
    simp only [hg]
    exact deliver_cs_message_step env sender ep m cs _ st
      (fun c => rfl) (fun c => rfl) (fun c => rfl) (fun c => rfl)
  | none =>
    simp only [hg]
    split
    · exact EngineStep.refl st
    · cases hn : env.acsNew st.id st.all_uids with
      | error e =>
        simp only [hn]
        exact EngineStep.refl st
      | ok cs0 =>
        simp only [hn]
        exact deliver_cs_message_step env sender ep m cs0 _ st
          (fun c => rfl) (fun c => rfl) (fun c => rfl) (fun c => rfl)

/-- Every call to `handle_message` — succeeding or failing — is an
`EngineStep`: no rollback, only appends. -/
theorem handle_message_step (env : Env T N C M) (sender : N) (msg : Message M)
    (st : HoneyBadger T N C M) :
    EngineStep st (handle_message env sender msg st).2 := by
  unfold handle_message
  split
  · cases msg with
    | CommonSubset ep m => exact handle_common_subset_message_step env sender ep m st
  · exact EngineStep.refl st

/-! Lemmas about the termination GC. -/

theorem gcStep_alGet_some (env : Env T N C M) (m : List (Nat × C)) (e j : Nat)
    (c : C) (h : alGet (gcStep env m e) j = some c) : alGet m j = some c := by
  unfold gcStep at h
  cases hg : alGet m e with
  | none =>
    simpa only [hg] using h
  | some c0 =>
    simp only [hg] at h
    by_cases ht : env.acsTerminated c0
    · rw [if_pos ht] at h
      exact alGet_alRemove_some m e j c h
    · rwa [if_neg ht] at h

theorem foldl_gcStep_alGet_some (env : Env T N C M) :
    ∀ (L : List Nat) (m : List (Nat × C)) (j : Nat) (c : C),
      alGet (L.foldl (gcStep env) m) j = some c → alGet m j = some c := by
  intro L
  induction L with
  | nil => intro m j c h; exact h
  | cons e0 L' ih =>
    intro m j c h
    exact gcStep_alGet_some env m e0 j c (ih (gcStep env m e0) j c h)

theorem foldl_gcStep_clean (env : Env T N C M) :
    ∀ (L : List Nat) (m : List (Nat × C)), ∀ e ∈ L, ∀ c : C,
      alGet (L.foldl (gcStep env) m) e = some c → env.acsTerminated c = false := by
  intro L
  induction L with
  | nil => intro m e he; simp at he
  | cons e0 L' ih =>
    intro m e he c h
    rcases List.mem_cons.mp he with he0 | heL
    · subst he0
      have h2 : alGet (gcStep env m e) e = some c :=
        foldl_gcStep_alGet_some env L' (gcStep env m e) e c h
      unfold gcStep at h2
      cases hg : alGet m e with
      | none =>
        rw [hg] at h2
        simp only [] at h2
        rw [hg] at h2
        exact absurd h2 (by simp)
      | some c0 =>
        simp only [hg] at h2
        by_cases ht : env.acsTerminated c0
        · rw [if_pos ht, alGet_alRemove_self] at h2
          exact absurd h2 (by simp)
        · rw [if_neg ht, hg] at h2
          have hc : c0 = c := by simpa using h2
          subst hc
          simpa using ht
    · exact ih (gcStep env m e0) e heL c h

/-- After `remove_terminated env st fe`, no terminated instance survives
at any epoch in `[fe, st.epoch)`. -/
theorem remove_terminated_clean (env : Env T N C M) (st : HoneyBadger T N C M)
    (fe : Nat) :
    ∀ e c, fe ≤ e → e < st.epoch →
      alGet (remove_terminated env st fe).common_subsets e = some c →
      env.acsTerminated c = false := by
  intro e c h1 h2 h3
  unfold remove_terminated at h3
  simp only at h3
  refine foldl_gcStep_clean env (List.range' fe (st.epoch - fe))
    st.common_subsets e ?_ c h3
  have : e < fe + (st.epoch - fe) := by omega
  exact List.mem_range'_1.mpr ⟨h1, this⟩

/-- The central queue invariant: along every reachable schedule, the
batches returned so far followed by the queued batches are labelled with
the consecutive epochs `0, 1, …, epoch - 1`. -/
theorem reachable_output_linearity (env : Env T N C M)
    (st : HoneyBadger T N C M) (hist : List (Batch T))
    (h : Reachable env st hist) :
    (hist ++ st.output).map Batch.epoch = List.range st.epoch := by
  induction h with
  | init id uids bs txs st0 hnew =>
    obtain ⟨-, hep, hout⟩ := new_shape env id uids bs txs st0 hnew
    simp [hout, hep]
  | input_step st0 hist0 tx r st' hre heq ih =>
    simp only [input, add_transactions, Prod.mk.injEq] at heq
    obtain ⟨-, h2⟩ := heq
    subst h2
    simpa using ih
  | add_step st0 hist0 txs r st' hre heq ih =>
    simp only [add_transactions, Prod.mk.injEq] at heq
    obtain ⟨-, h2⟩ := heq
    subst h2
    simpa using ih
  | handle_step st0 hist0 sender msg r st' hre heq ih =>
    have h2 : (handle_message env sender msg st0).2 = st' := by rw [heq]
    have hstep := handle_message_step env sender msg st0
    rw [h2] at hstep
    obtain ⟨nb, -, -, -, -, -, hh⟩ := hstep
    exact hh hist0 ih
  | next_message_step st0 hist0 o st' hre heq ih =>
    cases hmsg : st0.messages with
    | nil =>
      simp only [next_message, hmsg, Prod.mk.injEq] at heq
      obtain ⟨-, h2⟩ := heq
      subst h2
      exact ih
    | cons tm rest =>
      simp only [next_message, hmsg, Prod.mk.injEq] at heq
      obtain ⟨-, h2⟩ := heq
      subst h2
      simpa using ih
  | next_output_none st0 hist0 st' hre heq ih =>
    cases houtp : st0.output with
    | nil =>
      simp only [next_output, houtp, Prod.mk.injEq] at heq
      obtain ⟨-, h2⟩ := heq
      subst h2
      exact ih
    | cons b0 rest =>
      simp only [next_output, houtp, Prod.mk.injEq] at heq
      obtain ⟨h1, -⟩ := heq
      exact absurd h1 (by simp)
  | next_output_some st0 hist0 b st' hre heq ih =>
    cases houtp : st0.output with
    | nil =>
      simp only [next_output, houtp, Prod.mk.injEq] at heq
      obtain ⟨h1, -⟩ := heq
      exact absurd h1 (by simp)
    | cons b0 rest =>
      simp only [next_output, houtp, Prod.mk.injEq, Option.some.injEq] at heq
      obtain ⟨h1, h2⟩ := heq
      subst h1
      subst h2
      rw [houtp] at ih
      simpa [List.append_assoc] using ih

/-! Concrete reachability facts for the scripted runs. -/

theorem reachable_exSt5 : Reachable exEnv exSt5 [] := by
  have h0 : Reachable exEnv exSt0 [] :=
    Reachable.init 0 [0] 1 [] exSt0 (by decide)
  have h1 := Reachable.handle_step exSt0 [] 0 (Message.CommonSubset 0 0)
    (.ok ()) (exStep exSt0 0) h0 (by decide)
  have h2 := Reachable.handle_step (exStep exSt0 0) [] 0 (Message.CommonSubset 1 0)
    (.ok ()) (exStep (exStep exSt0 0) 1) h1 (by decide)
  have h3 := Reachable.handle_step (exStep (exStep exSt0 0) 1) [] 0
    (Message.CommonSubset 2 0) (.ok ())
    (exStep (exStep (exStep exSt0 0) 1) 2) h2 (by decide)
  have h4 := Reachable.handle_step (exStep (exStep (exStep exSt0 0) 1) 2) [] 0
    (Message.CommonSubset 3 0) (.ok ())
    (exStep (exStep (exStep (exStep exSt0 0) 1) 2) 3) h3 (by decide)
  have h5 := Reachable.handle_step
    (exStep (exStep (exStep (exStep exSt0 0) 1) 2) 3) [] 0
    (Message.CommonSubset 4 0) (.ok ()) exSt5 h4 (by decide)
  exact h5

/-- Claim C1 counterexample: in a reachable engine state at epoch 5
whose ACS instance for the past epoch 2 is still alive, a valid-sender
`CommonSubset(2, m)` message is NOT dropped silently: `handle_message`
returns `Ok` but the message is delivered to the old instance and its
drained replies are appended to the outbound queue. -/
theorem C1_counterexample :
    Reachable exEnv exSt5 [] ∧
    exSt5.epoch = 5 ∧
    (2 : Nat) < exSt5.epoch ∧
    0 ∈ exSt5.all_uids ∧
    (handle_message exEnv 0 (Message.CommonSubset 2 0) exSt5).1 = .ok () ∧
    (handle_message exEnv 0 (Message.CommonSubset 2 0) exSt5).2.messages ≠
      exSt5.messages :=
  ⟨reachable_exSt5, by decide, by decide, by decide, by decide, by decide⟩

/-- Claim C1 (amended): an inbound `CommonSubset(e, m)` message from a
member sender with `e` below the current epoch is dropped silently
provided no ACS instance for `e` is present in the registry:
`handle_message` returns `Ok` and the entire state is unchanged — no
instance is created, nothing is delivered, nothing is queued.  (When an
instance for `e` survives, the code instead delivers the message to
it.) -/
theorem C1_stale_vacant_drop (env : Env T N C M) (sender : N) (e : Nat) (m : M)
    (st : HoneyBadger T N C M) (hs : sender ∈ st.all_uids) (he : e < st.epoch)
    (hv : alGet st.common_subsets e = none) :
    handle_message env sender (Message.CommonSubset e m) st = (.ok (), st) := by
  unfold handle_message handle_common_subset_message
  rw [if_pos hs]
  simp only [hv]
  rw [if_pos he]

/-- Witness for the amended C1 at a concrete input. -/
theorem C1_stale_vacant_drop_witness :
    0 ∈ exV.all_uids ∧ 2 < exV.epoch ∧ alGet exV.common_subsets 2 = none ∧
    handle_message exEnv 0 (Message.CommonSubset 2 0) exV = (.ok (), exV) :=
  ⟨by decide, by decide, by decide,
    C1_stale_vacant_drop exEnv 0 2 0 exV (by decide) (by decide) (by decide)⟩

/-- Claim C2: along every schedule, the batches returned by successive
`next_output` calls carry the epochs `0, 1, 2, …` in order and without
gaps (the k-th batch ever returned has epoch k), and together with the
still queued batches they are labelled `0 … epoch-1`. -/
theorem C2_epoch_linearity (env : Env T N C M) (st : HoneyBadger T N C M)
    (hist : List (Batch T)) (h : Reachable env st hist) :
    hist.map Batch.epoch = List.range hist.length ∧
    (hist ++ st.output).map Batch.epoch = List.range st.epoch := by
  have inv := reachable_output_linearity env st hist h
  refine ⟨?_, inv⟩
  have hmap : hist.map Batch.epoch ++ st.output.map Batch.epoch =
      List.range st.epoch := by
    simpa using inv
  have hlen : hist.length + st.output.length = st.epoch := by
    have := congrArg List.length hmap
    simpa using this
  have h1 : hist.map Batch.epoch = (List.range st.epoch).take hist.length := by
    rw [← hmap, List.take_left' (by simp)]
  rw [h1, List.take_range]
  congr 1
  omega

/-- Witness for C2 on the freshly constructed scripted engine. -/
theorem C2_epoch_linearity_witness :
    ([] : List (Batch Nat)).map Batch.epoch =
      List.range ([] : List (Batch Nat)).length ∧
    (([] : List (Batch Nat)) ++ exSt0.output).map Batch.epoch =
      List.range exSt0.epoch :=
  C2_epoch_linearity exEnv exSt0 []
    (Reachable.init 0 [0] 1 [] exSt0 (by decide))

/-- Claim C6: a message from a sender outside `all_uids` is rejected
with `UnknownSender` and the state is returned untouched. -/
theorem C6_unknown_sender (env : Env T N C M) (sender : N) (msg : Message M)
    (st : HoneyBadger T N C M) (hs : sender ∉ st.all_uids) :
    handle_message env sender msg st = (.error .UnknownSender, st) := by
  unfold handle_message
  rw [if_neg hs]

/-- Witness for C6 at a concrete input. -/
theorem C6_unknown_sender_witness :
    (1 : Nat) ∉ exD0.all_uids ∧
    handle_message exEnv 1 (Message.CommonSubset 0 0) exD0 =
      (.error .UnknownSender, exD0) :=
  ⟨by decide, C6_unknown_sender exEnv 1 (Message.CommonSubset 0 0) exD0 (by decide)⟩

/-- Claim C9: `input` and `add_transactions` always return `Ok`, append
the given transactions to the end of the buffer in order, and leave
epoch, ACS registry, outbound queue and output queue unchanged. -/
theorem C9_append_only (st : HoneyBadger T N C M) (txs : List T) (tx : T) :
    (add_transactions st txs).1 = .ok () ∧
    (add_transactions st txs).2.buffer = st.buffer ++ txs ∧
    (add_transactions st txs).2.epoch = st.epoch ∧
    (add_transactions st txs).2.common_subsets = st.common_subsets ∧
    (add_transactions st txs).2.messages = st.messages ∧
    (add_transactions st txs).2.output = st.output ∧
    input st tx = add_transactions st [tx] :=
  ⟨rfl, rfl, rfl, rfl, rfl, rfl, rfl⟩

/-- Claim C3 counterexample: a transaction that was batched and pruned
can be re-added by `input` before the batch is polled; `next_output`
then returns a batch whose transaction 5 IS in the buffer at that
point. -/
theorem C3_counterexample :
    Reachable exEnvB exB2 [] ∧
    (next_output exB2).1 = some { epoch := 0, transactions := {5} } ∧
    (5 : Nat) ∈ ({5} : Finset Nat) ∧
    (5 : Nat) ∈ exB2.buffer := by
  refine ⟨?_, by decide, by decide, by decide⟩
  have h0 : Reachable exEnvB exB0 [] :=
    Reachable.init 0 [0] 1 [5] exB0 (by decide)
  have h1 := Reachable.handle_step exB0 [] 0 (Message.CommonSubset 0 0)
    (.ok ()) ((handle_message exEnvB 0 (Message.CommonSubset 0 0) exB0).2) h0
    (by decide)
  exact Reachable.input_step _ [] 5 (.ok ()) exB2 h1 (by decide)

/-- Claim C3 (amended): pruning holds at emission time — every batch
appended to the output queue by a `handle_message` call is disjoint from
the buffer as that call returns.  (A subsequent `input` or
`add_transactions` may re-introduce a batched transaction before the
batch is polled by `next_output`, which is the only way the original
claim fails.) -/
theorem C3_emission_pruning (env : Env T N C M) (sender : N) (msg : Message M)
    (st : HoneyBadger T N C M) :
    ∀ b ∈ (handle_message env sender msg st).2.output.drop st.output.length,
      ∀ t ∈ b.transactions, t ∉ (handle_message env sender msg st).2.buffer := by
  obtain ⟨nb, ho, -, -, hp, -, -⟩ := handle_message_step env sender msg st
  intro b hb t ht
  rw [ho, List.drop_left] at hb
  exact hp b hb t ht

/-- Witness for the amended C3: the batch emitted by the scripted
epoch-0 delivery is disjoint from the resulting buffer. -/
theorem C3_emission_pruning_witness :
    (5 : Nat) ∉ (handle_message exEnvB 0 (Message.CommonSubset 0 0) exB0).2.buffer :=
  C3_emission_pruning exEnvB 0 (Message.CommonSubset 0 0) exB0
    { epoch := 0, transactions := {5} } (by decide) 5 (by decide)

/-- Claim C8 counterexample: a failing delivery to a still-alive past
instance can leave that instance terminated, and the early error return
skips the GC scan — so at this observation point a terminated instance
for epoch 2 < epoch 5 is still present in the registry. -/
theorem C8_counterexample :
    Reachable exEnv exSt7 [] ∧
    (2 : Nat) < exSt7.epoch ∧
    alGet exSt7.common_subsets 2 = some 100 ∧
    exEnv.acsTerminated 100 = true := by
  refine ⟨?_, by decide, by decide, by decide⟩
  exact Reachable.handle_step exSt5 [] 0 (Message.CommonSubset 2 99)
    (.error (.CommonSubset 7)) exSt7 reachable_exSt5 (by decide)

/-- Claim C10: errors from `handle_message` do not roll back effects
already applied in the same call — the old output queue stays a prefix
of the new one, the epoch has advanced by exactly the number of batches
emitted in the call, and every batch emitted in the call is disjoint
from the final buffer. -/
theorem C10_no_rollback (env : Env T N C M) (sender : N) (msg : Message M)
    (st : HoneyBadger T N C M) (err : Error) (st' : HoneyBadger T N C M)
    (h : handle_message env sender msg st = (.error err, st')) :
    st.output <+: st'.output ∧
    st.epoch ≤ st'.epoch ∧
    st'.output.length + st.epoch = st.output.length + st'.epoch ∧
    ∀ b ∈ st'.output.drop st.output.length, ∀ t ∈ b.transactions,
      t ∉ st'.buffer := by
  have h2 : (handle_message env sender msg st).2 = st' := by rw [h]
  have hstep := handle_message_step env sender msg st
  rw [h2] at hstep
  obtain ⟨nb, ho, he, -, hp, -, -⟩ := hstep
  have hlen : st'.output.length = st.output.length + nb.length := by
    rw [ho]; simp
  refine ⟨⟨nb, ho.symm⟩, by omega, by omega, ?_⟩
  intro b hb t ht
  rw [ho, List.drop_left] at hb
  exact hp b hb t ht

/-- Witness for C10: over `exEnvC`, handling the epoch-0 message emits
the batch for epoch 0, advances to epoch 1 and only then fails to
serialize the follow-up proposal; the error return keeps the emitted
batch, the advanced epoch and the pruned buffer. -/
theorem C10_no_rollback_witness :
    (handle_message exEnvC 0 (Message.CommonSubset 0 0) exC0).1 =
      .error (.Bincode 9) ∧
    exC0.output <+:
      (handle_message exEnvC 0 (Message.CommonSubset 0 0) exC0).2.output ∧
    exC0.epoch ≤ (handle_message exEnvC 0 (Message.CommonSubset 0 0) exC0).2.epoch ∧
    (5 : Nat) ∉ (handle_message exEnvC 0 (Message.CommonSubset 0 0) exC0).2.buffer := by
  have hmain := C10_no_rollback exEnvC 0 (Message.CommonSubset 0 0) exC0
    (.Bincode 9) (handle_message exEnvC 0 (Message.CommonSubset 0 0) exC0).2
    (by decide)
  exact ⟨by decide, hmain.1, hmain.2.1,
    hmain.2.2.2 { epoch := 0, transactions := {5} } (by decide) 5 (by decide)⟩

/-- Unfolding characterization of `choose_transactions`. -/
theorem choose_transactions_eq (env : Env T N C M) (st : HoneyBadger T N C M) :
    choose_transactions env st =
      (match env.ser
          (match env.sample_iter
              (st.buffer.take (min st.batch_size st.buffer.length))
              (max 1 (st.batch_size / st.all_uids.card)) with
            | .ok choice => choice
            | .error choice => choice) with
        | .error e => .error (.Bincode e)
        | .ok bytes => .ok bytes) :=
  rfl

/-- Claim C4: with a non-empty membership set, the sampler requests
`amount = max(1, batch_size / |all_uids|)` transactions from the window
consisting of the first `min(batch_size, |buffer|)` buffer elements;
under the `rand::seq::sample_iter` contract the sample is drawn without
replacement (a sub-permutation of the window) of size `amount`, or the
whole window — without error — when the window is shorter; the sample is
then serialized as the proposal. -/
theorem C4_sampler_spec (env : Env T N C M) (st : HoneyBadger T N C M)
    (_hne : 0 < st.all_uids.card)
    (hok : ∀ (l : List T) (k : Nat), k ≤ l.length →
      ∃ s, env.sample_iter l k = .ok s ∧ s.length = k ∧ s.Subperm l)
    (herr : ∀ (l : List T) (k : Nat), l.length < k →
      env.sample_iter l k = .error l) :
    ∃ s : List T,
      s.Subperm (st.buffer.take (min st.batch_size st.buffer.length)) ∧
      (if (st.buffer.take (min st.batch_size st.buffer.length)).length <
          max 1 (st.batch_size / st.all_uids.card)
        then s = st.buffer.take (min st.batch_size st.buffer.length)
        else s.length = max 1 (st.batch_size / st.all_uids.card)) ∧
      choose_transactions env st =
        (match env.ser s with
          | .error e => .error (.Bincode e)
          | .ok bytes => .ok bytes) := by
  by_cases hlt : (st.buffer.take (min st.batch_size st.buffer.length)).length <
      max 1 (st.batch_size / st.all_uids.card)
  · refine ⟨st.buffer.take (min st.batch_size st.buffer.length),
      List.Subperm.refl _, by rw [if_pos hlt], ?_⟩
    rw [choose_transactions_eq, herr _ _ hlt]
  · obtain ⟨s, hs, hlen, hsub⟩ :=
      hok (st.buffer.take (min st.batch_size st.buffer.length))
        (max 1 (st.batch_size / st.all_uids.card)) (Nat.le_of_not_lt hlt)
    refine ⟨s, hsub, by rw [if_neg hlt]; exact hlen, ?_⟩
    rw [choose_transactions_eq, hs]

/-- Witness for C4 at a concrete engine and the take-based scripted
sampler, which satisfies the `sample_iter` contract. -/
theorem C4_sampler_spec_witness :
    ∃ s : List Nat,
      s.Subperm (exD0.buffer.take (min exD0.batch_size exD0.buffer.length)) ∧
      (if (exD0.buffer.take (min exD0.batch_size exD0.buffer.length)).length <
          max 1 (exD0.batch_size / exD0.all_uids.card)
        then s = exD0.buffer.take (min exD0.batch_size exD0.buffer.length)
        else s.length = max 1 (exD0.batch_size / exD0.all_uids.card)) ∧
      choose_transactions exEnv exD0 =
        (match exEnv.ser s with
          | .error e => .error (.Bincode e)
          | .ok bytes => .ok bytes) := by
  refine C4_sampler_spec exEnv exD0 (by decide) ?_ ?_
  · intro l k hk
    refine ⟨l.take k, ?_, ?_, (List.take_sublist k l).subperm⟩
    · show (if l.length < k then Except.error l else Except.ok (l.take k)) =
        Except.ok (l.take k)
      rw [if_neg (Nat.not_lt.mpr hk)]
    · simp [List.length_take, Nat.min_eq_left hk]
  · intro l k hk
    show (if l.length < k then Except.error l else Except.ok (l.take k)) =
      Except.error l
    rw [if_pos hk]

/-- `choose_transactions` can only fail with a `Bincode` error. -/
theorem choose_transactions_error_shape (env : Env T N C M)
    (st : HoneyBadger T N C M) (e : Error)
    (h : choose_transactions env st = .error e) : ∃ n, e = Error.Bincode n := by
  rw [choose_transactions_eq] at h
  split at h
  · exact ⟨_, (Except.error.injEq _ _ ▸ h).symm⟩
  · exact absurd h (by simp)

/-- `cs_input_and_drain` can only fail with a `CommonSubset` error. -/
theorem cs_input_and_drain_error_shape (env : Env T N C M) (ep : Nat)
    (pr : Bytes) (cs : C) (store : C → HoneyBadger T N C M) (e : Error)
    (h : (cs_input_and_drain env ep pr cs store).1 = .error e) :
    ∃ n, e = Error.CommonSubset n := by
  unfold cs_input_and_drain at h
  cases hri : (env.acsInput cs pr).1 with
  | error e0 =>
    simp only [hri] at h
    exact ⟨e0, by simpa using h.symm⟩
  | ok u =>
    simp only [hri] at h
    exact absurd h (by simp)

/-- `propose` never fails with `OwnIdMissing` (or `UnknownSender`): its
errors wrap the serializer or the ACS. -/
theorem propose_error_shape (env : Env T N C M) (st : HoneyBadger T N C M)
    (e : Error) (h : (propose env st).1 = .error e) :
    (∃ n, e = Error.CommonSubset n) ∨ (∃ n, e = Error.Bincode n) := by
  unfold propose at h
  cases hc : choose_transactions env st with
  | error e0 =>
    simp only [hc] at h
    obtain ⟨n, hn⟩ := choose_transactions_error_shape env st e0 hc
    exact Or.inr ⟨n, by simpa [hn] using h.symm⟩
  | ok proposal =>
    simp only [hc] at h
    cases hg : alGet st.common_subsets st.epoch with
    | some cs =>
      simp only [hg] at h
      exact Or.inl (cs_input_and_drain_error_shape env st.epoch proposal cs _ e h)
    | none =>
      simp only [hg] at h
      cases hn : env.acsNew st.id st.all_uids with
      | error e0 =>
        simp only [hn] at h
        exact Or.inl ⟨e0, by simpa using h.symm⟩
      | ok cs0 =>
        simp only [hn] at h
        exact Or.inl (cs_input_and_drain_error_shape env st.epoch proposal cs0 _ e h)

/-- Claim C7: `new(id, all_ids, batch_size, txs)` returns `OwnIdMissing`
exactly when `id` is not a member of `all_ids`. -/
theorem C7_own_id_missing (env : Env T N C M) (id : N) (uids : List N)
    (bs : Nat) (txs : List T) :
    new env id uids bs txs = .error Error.OwnIdMissing ↔ id ∉ uids := by
  constructor
  · intro h hid
    simp only [new] at h
    rw [if_pos (List.mem_toFinset.mpr hid)] at h
    rcases heq : propose env
        { buffer := txs, epoch := 0, common_subsets := [], id := id,
          all_uids := uids.toFinset, batch_size := bs, messages := [],
          output := [] } with ⟨r, hb'⟩
    rw [heq] at h
    cases r with
    | ok u => simp at h
    | error e =>
      simp only [Except.error.injEq] at h
      have h1 : (propose env
          { buffer := txs, epoch := 0, common_subsets := [], id := id,
            all_uids := uids.toFinset, batch_size := bs, messages := [],
            output := [] }).1 = .error e := by rw [heq]
      rcases propose_error_shape env _ e h1 with ⟨n, hn⟩ | ⟨n, hn⟩ <;>
        simp [hn] at h
  · intro h
    simp only [new]
    rw [if_neg (fun hc => h (List.mem_toFinset.mp hc))]

/-- Witness for C7 in both directions at concrete inputs. -/
theorem C7_own_id_missing_witness :
    new exEnv 7 [0] 1 ([] : List Nat) = .error Error.OwnIdMissing ∧
    ¬ new exEnv 0 [0] 1 ([] : List Nat) = .error Error.OwnIdMissing :=
  ⟨(C7_own_id_missing exEnv 7 [0] 1 []).mpr (by decide),
    fun hc => absurd ((C7_own_id_missing exEnv 0 [0] 1 []).mp hc) (by decide)⟩

/-- A successful `deliver_cs_message` returns the state produced by the
final `remove_terminated` GC scan. -/
theorem deliver_cs_message_ok_shape (env : Env T N C M) (sender : N) (ep : Nat)
    (m : M) (cs : C) (store : C → HoneyBadger T N C M)
    (st' : HoneyBadger T N C M)
    (h : deliver_cs_message env sender ep m cs store = (.ok (), st')) :
    ∃ stX, st' = remove_terminated env stX ep := by
  unfold deliver_cs_message at h
  cases hrh : (env.acsHandleMessage cs sender m).1 with
  | error e =>
    simp only [hrh] at h
    simp at h
  | ok u =>
    simp only [hrh] at h
    split at h
    · simp at h
    · rw [Prod.mk.injEq] at h
      exact ⟨_, h.2.symm⟩

/-- Claim C8 (amended): whenever `handle_message` actually delivers a
`CommonSubset(e, m)` message (the obsolete-drop path is not taken, i.e.
`e` is current/future or an instance for `e` exists) and returns `Ok`,
the final GC scan has removed every terminated instance with epoch in
`[e, engine.epoch)`: any instance still present there is not
terminated.  The original claim's unconditional invariant fails at
observation points reached through error returns or obsolete drops,
which skip the scan. -/
theorem C8_gc_scan (env : Env T N C M) (sender : N) (e : Nat) (m : M)
    (st st' : HoneyBadger T N C M)
    (hdeliver : st.epoch ≤ e ∨ (alGet st.common_subsets e).isSome)
    (hok : handle_message env sender (Message.CommonSubset e m) st = (.ok (), st')) :
    ∀ e' c, e ≤ e' → e' < st'.epoch →
      alGet st'.common_subsets e' = some c → env.acsTerminated c = false := by
  simp only [handle_message] at hok
  split at hok
  case isTrue hs =>
    simp only [handle_common_subset_message] at hok
    cases hg : alGet st.common_subsets e with
    | some cs =>
      simp only [hg] at hok
      obtain ⟨stX, hst'⟩ := deliver_cs_message_ok_shape env sender e m cs _ st' hok
      subst hst'
      intro e' c h1 h2 h3
      exact remove_terminated_clean env stX e e' c h1 h2 h3
    | none =>
      simp only [hg] at hok
      split at hok
      case isTrue hlt =>
        rcases hdeliver with hle | hsome
        · omega
        · rw [hg] at hsome
          simp at hsome
      case isFalse hge =>
        cases hn : env.acsNew st.id st.all_uids with
        | error e0 =>
          simp only [hn] at hok
          simp at hok
        | ok cs0 =>
          simp only [hn] at hok
          obtain ⟨stX, hst'⟩ :=
            deliver_cs_message_ok_shape env sender e m cs0 _ st' hok
          subst hst'
          intro e' c h1 h2 h3
          exact remove_terminated_clean env stX e e' c h1 h2 h3
  case isFalse hs => simp at hok

/-- Witness for the amended C8: after the successful delivery of a
stale epoch-2 message in the scripted run, the surviving instance at
epoch 3 is indeed not terminated. -/
theorem C8_gc_scan_witness :
    alGet exSt6.common_subsets 3 = some 3 ∧ exEnv.acsTerminated 3 = false := by
  refine ⟨by decide, ?_⟩
  exact C8_gc_scan exEnv 0 2 0 exSt5 exSt6 (Or.inr (by decide)) (by decide) 3 3
    (by decide) (by decide) (by decide)

/-- Claim C5: when the current epoch's ACS yields an output map and
decoding one of its proposals fails, `handle_message` (the operation
that drove the ACS) returns the `Bincode` error; no batch is emitted,
the buffer is not pruned and the epoch is not advanced. -/
theorem C5_decode_failure (env : Env T N C M) (sender : N) (m : M)
    (st : HoneyBadger T N C M) (cs cs2 cs3 cs4 : C)
    (msgs : List (TargetedMessage M N)) (out : List (N × Bytes)) (e : Nat)
    (hs : sender ∈ st.all_uids)
    (hocc : alGet st.common_subsets st.epoch = some cs)
    (hhm : env.acsHandleMessage cs sender m = (.ok (), cs2))
    (hit : env.acsMessageIter cs2 = (msgs, cs3))
    (hout : env.acsNextOutput cs3 = (some out, cs4))
    (hdec : decodeAll env out = .error e) :
    (handle_message env sender (Message.CommonSubset st.epoch m) st).1 =
      .error (.Bincode e) ∧
    (handle_message env sender (Message.CommonSubset st.epoch m) st).2.buffer =
      st.buffer ∧
    (handle_message env sender (Message.CommonSubset st.epoch m) st).2.epoch =
      st.epoch ∧
    (handle_message env sender (Message.CommonSubset st.epoch m) st).2.output =
      st.output := by
  have halset : alGet (alSet st.common_subsets st.epoch cs3) st.epoch = some cs3 :=
    alGet_alSet_self _ _ _ _ hocc
  have hcall : handle_message env sender (Message.CommonSubset st.epoch m) st =
      (.error (.Bincode e),
        { st with
          common_subsets :=
            alSet (alSet st.common_subsets st.epoch cs3) st.epoch cs4,
          messages := st.messages ++
            msgs.map (fun tm =>
              { tm with message := Message.CommonSubset st.epoch tm.message }) }) := by
    simp only [handle_message, handle_common_subset_message, deliver_cs_message,
      process_output, process_output_go, take_current_output]
    rw [if_pos hs]
    simp only [hocc, hhm, hit, hout, hdec, halset, eq_self_iff_true, if_true]
  rw [hcall]
  exact ⟨rfl, rfl, rfl, rfl⟩

/-- Witness for C5 on the scripted engine whose single proposal bytes
fail to decode. -/
theorem C5_decode_failure_witness :
    (handle_message exEnvD 0 (Message.CommonSubset exD0.epoch 0) exD0).1 =
      .error (.Bincode 3) ∧
    (handle_message exEnvD 0 (Message.CommonSubset exD0.epoch 0) exD0).2.buffer =
      exD0.buffer ∧
    (handle_message exEnvD 0 (Message.CommonSubset exD0.epoch 0) exD0).2.epoch =
      exD0.epoch ∧
    (handle_message exEnvD 0 (Message.CommonSubset exD0.epoch 0) exD0).2.output =
      exD0.output :=
  C5_decode_failure exEnvD 0 0 exD0 1 2 2 3 [] [(0, [])] 3
    (by decide) (by decide) (by decide) (by decide) (by decide) (by decide)

/-! Fuel adequacy: the assembler loop never inserts keys and advances
the epoch each iteration, so `common_subsets.length + 1` fuel makes the
fuel-indexed loop agree with the unbounded Rust `while let` loop. -/

theorem countP_alSet (m : List (Nat × C)) (k : Nat) (v : C) (e : Nat) :
    (alSet m k v).countP (fun q => decide (e ≤ q.1)) =
      m.countP (fun q => decide (e ≤ q.1)) := by
  induction m with
  | nil => simp [alSet]
  | cons p rest ih =>
    obtain ⟨k', v'⟩ := p
    by_cases hk : k' = k
    · subst hk
      simp [alSet, List.countP_cons, ih]
    · simp [alSet, hk, List.countP_cons, ih]

theorem countP_key_strict (m : List (Nat × C)) (e : Nat) (c : C)
    (h : alGet m e = some c) :
    m.countP (fun q => decide (e + 1 ≤ q.1)) <
      m.countP (fun q => decide (e ≤ q.1)) := by
  induction m with
  | nil => simp [alGet] at h
  | cons p rest ih =>
    obtain ⟨k', v'⟩ := p
    rw [alGet] at h
    by_cases hk : k' = e
    · subst hk
      have hmono : rest.countP (fun q => decide (k' + 1 ≤ q.1)) ≤
          rest.countP (fun q => decide (k' ≤ q.1)) := by
        apply List.countP_mono_left
        intro a _ ha
        simp only [decide_eq_true_eq] at ha ⊢
        omega
      have h1 : (decide (k' + 1 ≤ k') : Bool) = false := by simp
      have h2 : (decide (k' ≤ k') : Bool) = true := by simp
      simp [List.countP_cons, h1, h2]
      omega
    · rw [if_neg hk] at h
      have := ih h
      simp only [List.countP_cons]
      by_cases h1 : e + 1 ≤ k'
      · have h2 : e ≤ k' := by omega
        simp only [decide_eq_true_eq, h1, h2, if_pos]
        omega
      · by_cases h2 : e ≤ k' <;> simp [h1, h2] <;> omega

theorem process_output_go_stable (env : Env T N C M) :
    ∀ (fuel : Nat) (st : HoneyBadger T N C M),
      st.common_subsets.countP (fun q => decide (st.epoch ≤ q.1)) < fuel →
      process_output_go env fuel st = process_output_go env (fuel + 1) st := by
  intro fuel
  induction fuel with
  | zero => intro st h; omega
  | succ fuel ih =>
    intro st h
    rw [process_output_go, process_output_go]
    cases hch : (take_current_output env st).1 with
    | none => simp only [hch]
    | some ser =>
      simp only [hch]
      cases hd : decodeAll env ser with
      | error e => simp only [hd]
      | ok txss =>
        simp only [hd]
        apply ih
        unfold take_current_output at hch ⊢
        cases hg : alGet st.common_subsets st.epoch with
        | none => rw [hg] at hch; simp at hch
        | some cs =>
          simp only [hg]
          have hlt := countP_key_strict st.common_subsets st.epoch cs hg
          have heq := countP_alSet st.common_subsets st.epoch
            (env.acsNextOutput cs).2 (st.epoch + 1)
          simp only [heq]
          omega

theorem process_output_fuel_sufficient (env : Env T N C M)
    (st : HoneyBadger T N C M) :
    ∀ extra, process_output_go env (st.common_subsets.length + 1 + extra) st =
      process_output_go env (st.common_subsets.length + 1) st := by
  have hbound : st.common_subsets.countP (fun q => decide (st.epoch ≤ q.1)) <
      st.common_subsets.length + 1 :=
    Nat.lt_succ_of_le (List.countP_le_length _)
  intro extra
  induction extra with
  | zero => rfl
  | succ extra ih =>
    have : st.common_subsets.length + 1 + (extra + 1) =
        (st.common_subsets.length + 1 + extra) + 1 := by omega
    rw [this, ← process_output_go_stable env _ st (by omega), ih]
